import Mathlib

/-!
Shallow embedding of `src/automata.py` (class `AdvancedCellularAutomaton`):
the grid update engine, the neighborhood sampler, the two update rules and
grid initialization.  Cell values are IEEE doubles in the source; here they
are modelled as `Option ℚ`, where `none` models NaN (the one non-finite
value the program can actually produce, via `np.mean` of an empty array)
and `some q` a finite double, with exact rational arithmetic standing in
for double arithmetic.  A Python exception raised by a rule callback is
modelled with `Except`: the error branch carries the object state at the
moment the exception propagates out of `update`.
-/

namespace Automata

/-- A cell value: `none` models NaN, `some q` a finite double. -/
abbrev V := Option ℚ

/-- Addition with NaN propagation, as IEEE `+` behaves on the values we model. -/
def nadd (a b : V) : V := do pure ((← a) + (← b))

/-- Multiplication with NaN propagation, as IEEE `*` behaves on the values we model
(the program never multiplies NaN by zero or infinity, so propagation is exact). -/
def nmul (a b : V) : V := do pure ((← a) * (← b))

/-- Strict `<` on values: any comparison with NaN is false, as in IEEE/Python. -/
def nlt (a b : V) : Bool :=
  match a, b with
  | some x, some y => decide (x < y)
  | _, _ => false

/-- Extract the finite values of a list of cell values, `none` as soon as one
entry is NaN. -/
def allSome : List V → Option (List ℚ)
  | [] => some []
  | none :: _ => none
  | some x :: rest => (allSome rest).map (fun xs => x :: xs)

/-- Model of Python `sum(neighbors)`: 0 on the empty sequence, NaN as soon as
one summand is NaN. -/
def nsum (l : List V) : V := (allSome l).map List.sum

/-- Model of `np.mean`: NaN (with a RuntimeWarning, not an exception) on an
empty array, otherwise sum divided by length, NaN-propagating. -/
def npMean (l : List V) : V :=
  if l.length = 0 then none
  else (allSome l).map (fun xs => xs.sum / (xs.length : ℚ))

/-- The grid state of `AdvancedCellularAutomaton`: dimensions, value range
(`state_range`), and the two buffers `current_grid` / `next_grid`, each a
rows x cols matrix stored as a list of rows. -/
structure Grid where
  rows : ℕ
  cols : ℕ
  state_min : ℚ
  state_max : ℚ
  current : List (List V)
  next : List (List V)

/-- Read entry `(r, c)` of a buffer (in-bounds use only; out of bounds the
`getD` defaults are never hit by the embedded code paths). -/
def getEntry (buf : List (List V)) (r c : ℕ) : V :=
  (buf.getD r []).getD c none

/-- A buffer has shape rows x cols. -/
def BufShape (buf : List (List V)) (rows cols : ℕ) : Prop :=
  buf.length = rows ∧ ∀ row ∈ buf, row.length = cols

/-- Both buffers have the grid's declared shape (true of every state the
program constructs, since NumPy arrays are rectangular). -/
def WellFormed (g : Grid) : Prop :=
  BufShape g.current g.rows g.cols ∧ BufShape g.next g.rows g.cols

/-- A fresh rows x cols buffer with entries drawn from `f`, modelling
`np.random.uniform(size=(rows, cols))` / `np.full` according to `f`. -/
def mkBuf (rows cols : ℕ) (f : ℕ → ℕ → V) : List (List V) :=
  (List.range rows).map (fun r => (List.range cols).map (fun c => f r c))

/-- Model of `np.zeros_like`: a buffer of the same shape, all zeros. -/
def zeros_like (buf : List (List V)) : List (List V) :=
  buf.map (fun row => row.map (fun _ => some 0))

/-- `initialize_grid(mode, **kwargs)` (automata.py:43-59).  `value` is the
optional `value` kwarg; `rand` stands for the ambient NumPy random source
read in `random` mode.  Note line 59 (`self.next_grid = np.zeros_like(...)`)
runs whatever the mode, including an unrecognized one. -/
def initialize_grid (g : Grid) (mode : String) (value : Option V)
    (rand : ℕ → ℕ → V) : Grid :=
  let uniformVal : V := value.getD (some g.state_min)
  let g' :=
    if mode = "random" then
      { g with current := mkBuf g.rows g.cols rand }
    else if mode = "uniform" then
      { g with current := mkBuf g.rows g.cols (fun _ _ => uniformVal) }
    else g
  { g' with next := zeros_like g'.current }

/-- Offsets `-radius, ..., radius` in ascending order (`range(-radius, radius+1)`). -/
def offsets (radius : ℕ) : List ℤ :=
  (List.range (2 * radius + 1)).map (fun k => (k : ℤ) - (radius : ℤ))

/-- `get_neighborhood(row, col, radius=1)` (automata.py:61-70): iterate
offsets `(i, j)` row-major, skip the center, append `current_grid[r, c]`
when `0 <= r < rows and 0 <= c < cols`. -/
def get_neighborhood (g : Grid) (row col : ℤ) (radius : ℕ := 1) : List V :=
  (offsets radius).flatMap (fun i =>
    (offsets radius).filterMap (fun j =>
      if i = 0 ∧ j = 0 then none
      else
        let r := row + i
        let c := col + j
        if 0 ≤ r ∧ r < (g.rows : ℤ) ∧ 0 ≤ c ∧ c < (g.cols : ℤ) then
          some (getEntry g.current r.toNat c.toNat)
        else none))

/-- `default_diffusion_rule` (automata.py:72-74):
`0.9 * cell_value + 0.1 * np.mean(neighbors)`. -/
def default_diffusion_rule (cell_value : V) (neighbors : List V) : V :=
  nadd (nmul (some (9 / 10)) cell_value) (nmul (some (1 / 10)) (npMean neighbors))

/-- `X_diffusion_rule` (automata.py:76-84).  The two `np.random.poisson`
draws are the only randomness and are passed in as the parameters `draw4`
(mean-4 draw) and `draw9` (mean-9 draw); Python's chained comparisons on
floats are `nlt` conjunctions (false on NaN). -/
def X_diffusion_rule (cell_value : V) (neighbors : List V)
    (attenuation : ℚ := 3 / 100) (draw4 draw9 : ℕ) : V :=
  let live_neighbors := nsum neighbors
  let valx : V :=
    if nlt (some (1 / 2)) cell_value && nlt cell_value (some (3 / 2)) then
      (if nlt (some (3 / 2)) live_neighbors && nlt live_neighbors (some (7 / 2))
        then some ((draw4 : ℚ) / 4) else some 0)
    else
      (if nlt (some 3) live_neighbors then some ((draw9 : ℚ) / 9) else some 0)
  nmul (some (1 - attenuation)) valx

/-- Write value `v` into entry `(r, c)` of a buffer (`self.next_grid[row, col] = ...`). -/
def writeCell (buf : List (List V)) (r c : ℕ) (v : V) : List (List V) :=
  buf.set r ((buf.getD r []).set c v)

/-- The row-major cell traversal of `update`'s two nested `for` loops. -/
def cellList (rows cols : ℕ) : List (ℕ × ℕ) :=
  (List.range rows).flatMap (fun r => (List.range cols).map (fun c => (r, c)))

/-- The body of `update`'s loop: for each listed cell, read `current`, sample
the radius-1 neighborhood, run the rule, write into the accumulating `next`
buffer.  A rule exception aborts immediately; the error carries the buffer
as written so far. -/
def stepWrites (g : Grid) (rule : V → List V → Except Unit V) :
    List (ℕ × ℕ) → List (List V) → Except (List (List V)) (List (List V))
  | [], buf => .ok buf
  | (r, c) :: rest, buf =>
    match rule (getEntry g.current r c) (get_neighborhood g (r : ℤ) (c : ℤ) 1) with
    | .ok v => stepWrites g rule rest (writeCell buf r c v)
    | .error _ => .error buf

/-- `update` (automata.py:95-103): run the loop body over every cell, then
swap `current_grid` and `next_grid`.  If the rule raises at some cell the
exception propagates before the swap line runs: the error result carries the
object state at that moment (`current` untouched, `next` partially written). -/
def update (g : Grid) (rule : V → List V → Except Unit V) : Except Grid Grid :=
  match stepWrites g rule (cellList g.rows g.cols) g.next with
  | .ok written => .ok { g with current := written, next := g.current }
  | .error buf => .error { g with next := buf }

/-- Lift a pure (never-raising) Python function into the engine's rule type. -/
def liftRule (f : V → List V → V) : V → List V → Except Unit V :=
  fun c ns => .ok (f c ns)

/-- Model of NumPy integer index resolution on an axis of length `n`:
in-range nonnegative indices are used as-is, negative indices in
`[-n, -1]` silently wrap to `n + i`, anything else raises IndexError
(modelled `none`). -/
def npIndex (n : ℕ) (i : ℤ) : Option ℕ :=
  if 0 ≤ i ∧ i < (n : ℤ) then some i.toNat
  else if -(n : ℤ) ≤ i ∧ i < 0 then some (i + (n : ℤ)).toNat
  else none

/-- Model of the read `self.current_grid[row, col]` on integer indices:
`none` models a raised IndexError, `some v` a returned value. -/
def npGet (g : Grid) (r c : ℤ) : Option V :=
  match npIndex g.rows r, npIndex g.cols c with
  | some r', some c' => some (getEntry g.current r' c')
  | _, _ => none

/-- Row-major list of all offsets `(di, dj)` in `[-radius, radius]^2`
(di ascending, then dj ascending), the center included. -/
def neighborOffsets (radius : ℕ) : List (ℤ × ℤ) :=
  (offsets radius).flatMap (fun i => (offsets radius).map (fun j => (i, j)))

/-- The spec's description of the sampler, written from its words: the values
`current[row+di, col+dj]` for the row-major offsets `(di, dj)` with
`(di, dj) ≠ (0, 0)` and both coordinates in bounds (no wraparound). -/
def sampledNeighborhood (g : Grid) (row col : ℤ) (radius : ℕ) : List V :=
  ((neighborOffsets radius).filter (fun p =>
      decide (¬(p.1 = 0 ∧ p.2 = 0) ∧ 0 ≤ row + p.1 ∧ row + p.1 < (g.rows : ℤ) ∧
        0 ≤ col + p.2 ∧ col + p.2 < (g.cols : ℤ)))).map
    (fun p => getEntry g.current (row + p.1).toNat (col + p.2).toNat)

/-- One candidate neighbor of the radius-1 sampling: a singleton when the
offset cell is in bounds, empty otherwise. -/
def inclCell (g : Grid) (row col i j : ℤ) : List V :=
  if 0 ≤ row + i ∧ row + i < (g.rows : ℤ) ∧ 0 ≤ col + j ∧ col + j < (g.cols : ℤ) then
    [getEntry g.current (row + i).toNat (col + j).toNat]
  else []

/-- A 1 x 2 grid used to instantiate hypotheses on concrete inputs. -/
def grid12 : Grid :=
  { rows := 1, cols := 2, state_min := 0, state_max := 1,
    current := [[some 1, some 0]], next := [[some 0, some 0]] }

/-- A 1 x 1 grid used to instantiate hypotheses on concrete inputs. -/
def grid11 : Grid :=
  { rows := 1, cols := 1, state_min := 0, state_max := 1,
    current := [[some 2]], next := [[some 3]] }

/-- A 2 x 2 grid with pairwise distinct entries, used for indexing scenarios. -/
def grid22 : Grid :=
  { rows := 2, cols := 2, state_min := 0, state_max := 1,
    current := [[some 1, some 2], [some 3, some 4]], next := [[some 0, some 0], [some 0, some 0]] }

/-- A 3 x 3 grid used to instantiate the sampler's count facts. -/
def grid33 : Grid :=
  { rows := 3, cols := 3, state_min := 0, state_max := 1,
    current := [[some 1, some 2, some 3], [some 4, some 5, some 6], [some 7, some 8, some 9]],
    next := [[some 0, some 0, some 0], [some 0, some 0, some 0], [some 0, some 0, some 0]] }

/-! ### Basic lemmas about buffers and value lists -/

theorem getD_set_self {α : Type*} (l : List α) (n : ℕ) (a d : α) (h : n < l.length) :
    (l.set n a).getD n d = a := by
  rw [List.getD_eq_getElem?_getD, List.getElem?_set_self h, Option.getD_some]

theorem getD_set_ne {α : Type*} (l : List α) (m n : ℕ) (a d : α) (h : m ≠ n) :
    (l.set n a).getD m d = l.getD m d := by
  rw [List.getD_eq_getElem?_getD, List.getElem?_set_ne (Ne.symm h),
    ← List.getD_eq_getElem?_getD]

theorem allSome_map_some (l : List ℚ) : allSome (l.map some) = some l := by
  induction l with
  | nil => rfl
  | cons x rest ih => simp [allSome, ih]

theorem allSome_length {l : List V} {xs : List ℚ} (h : allSome l = some xs) :
    xs.length = l.length := by
  induction l generalizing xs with
  | nil => simp [allSome] at h; simp [← h]
  | cons a rest ih =>
    match a with
    | none => simp [allSome] at h
    | some x =>
      simp only [allSome, Option.map_eq_some'] at h
      obtain ⟨ys, hys, rfl⟩ := h
      simp [ih hys]

theorem nsum_map_some (l : List ℚ) : nsum (l.map some) = some l.sum := by
  simp [nsum, allSome_map_some]

theorem npMean_nil : npMean [] = none := by simp [npMean]

theorem npMean_of_allSome {l : List V} {xs : List ℚ} (h : allSome l = some xs)
    (hne : l.length ≠ 0) :
    npMean l = some (xs.sum / (xs.length : ℚ)) := by
  simp [npMean, hne, h]

/-! ### Shape and entry lemmas for buffer writes -/

theorem length_writeCell (buf : List (List V)) (r c : ℕ) (v : V) :
    (writeCell buf r c v).length = buf.length := by
  simp [writeCell]

theorem getD_mem {α : Type*} (l : List α) (n : ℕ) (d : α) (h : n < l.length) :
    l.getD n d ∈ l := by
  rw [List.getD_eq_getElem?_getD, List.getElem?_eq_getElem h, Option.getD_some]
  exact List.getElem_mem h

theorem shape_writeCell {buf : List (List V)} {rows cols : ℕ}
    (h : BufShape buf rows cols) (r c : ℕ) (v : V) :
    BufShape (writeCell buf r c v) rows cols := by
  obtain ⟨hlen, hrow⟩ := h
  by_cases hr : r < buf.length
  · refine ⟨by simp [writeCell, hlen], ?_⟩
    intro row hmem
    rcases List.mem_or_eq_of_mem_set hmem with hmem' | rfl
    · exact hrow _ hmem'
    · have hmemr : buf.getD r [] ∈ buf := getD_mem _ _ _ hr
      rw [List.length_set]
      exact hrow _ hmemr
  · have heq : writeCell buf r c v = buf := by
      unfold writeCell
      exact List.set_eq_of_length_le (by omega)
    rw [heq]; exact ⟨hlen, hrow⟩

theorem getEntry_writeCell_self {buf : List (List V)} {rows cols : ℕ}
    (h : BufShape buf rows cols) {r c : ℕ} (hr : r < rows) (hc : c < cols) (v : V) :
    getEntry (writeCell buf r c v) r c = v := by
  obtain ⟨hlen, hrow⟩ := h
  have hrbuf : r < buf.length := by omega
  have hgetr : buf.getD r [] ∈ buf := getD_mem _ _ _ hrbuf
  have hclen : c < (buf.getD r []).length := by rw [hrow _ hgetr]; omega
  unfold getEntry writeCell
  rw [getD_set_self _ _ _ _ hrbuf, getD_set_self _ _ _ _ hclen]

theorem getEntry_writeCell_ne {buf : List (List V)} {r c r' c' : ℕ}
    (h : ¬(r = r' ∧ c = c')) (v : V) :
    getEntry (writeCell buf r' c' v) r c = getEntry buf r c := by
  by_cases hr : r = r'
  · subst hr
    have hc : c ≠ c' := by tauto
    by_cases hrbuf : r < buf.length
    · unfold getEntry writeCell
      rw [getD_set_self _ _ _ _ hrbuf, getD_set_ne _ _ _ _ _ hc]
    · have heq : buf.set r ((buf.getD r []).set c' v) = buf :=
        List.set_eq_of_length_le (by omega)
      unfold getEntry writeCell
      rw [heq]
  · unfold getEntry writeCell
    rw [getD_set_ne _ _ _ _ _ hr]

/-! ### The sampler at radius 1 -/

theorem offsets_one : offsets 1 = [-1, 0, 1] := by decide

theorem filterMap_cons_toList {α β : Type*} (f : α → Option β) (a : α) (l : List α) :
    List.filterMap f (a :: l) = (f a).toList ++ List.filterMap f l := by
  cases h : f a <;> simp [List.filterMap_cons, h]

theorem nbhd1_expand (g : Grid) (row col : ℤ) :
    get_neighborhood g row col 1 =
      inclCell g row col (-1) (-1) ++ (inclCell g row col (-1) 0 ++ (inclCell g row col (-1) 1 ++
      (inclCell g row col 0 (-1) ++ (inclCell g row col 0 1 ++
      (inclCell g row col 1 (-1) ++ (inclCell g row col 1 0 ++ inclCell g row col 1 1)))))) := by
  simp only [get_neighborhood, offsets_one]
  simp only [List.flatMap_cons, List.flatMap_nil, filterMap_cons_toList, List.filterMap_nil,
    List.append_nil]
  norm_num [inclCell, apply_ite Option.toList]

theorem mem_inclCell {g : Grid} {row col i j : ℤ} {v : V} :
    v ∈ inclCell g row col i j ↔
      (0 ≤ row + i ∧ row + i < (g.rows : ℤ) ∧ 0 ≤ col + j ∧ col + j < (g.cols : ℤ)) ∧
        v = getEntry g.current (row + i).toNat (col + j).toNat := by
  unfold inclCell
  split_ifs with h <;> simp [h]

theorem length_inclCell (g : Grid) (row col i j : ℤ) :
    (inclCell g row col i j).length =
      if 0 ≤ row + i ∧ row + i < (g.rows : ℤ) ∧ 0 ≤ col + j ∧ col + j < (g.cols : ℤ)
      then 1 else 0 := by
  unfold inclCell
  split_ifs <;> rfl

theorem nbhd1_length (g : Grid) (row col : ℤ) :
    (get_neighborhood g row col 1).length =
      ((((((((if 0 ≤ row + -1 ∧ row + -1 < (g.rows : ℤ) ∧ 0 ≤ col + -1 ∧ col + -1 < (g.cols : ℤ) then 1 else 0) +
      (if 0 ≤ row + -1 ∧ row + -1 < (g.rows : ℤ) ∧ 0 ≤ col + 0 ∧ col + 0 < (g.cols : ℤ) then 1 else 0)) +
      (if 0 ≤ row + -1 ∧ row + -1 < (g.rows : ℤ) ∧ 0 ≤ col + 1 ∧ col + 1 < (g.cols : ℤ) then 1 else 0)) +
      (if 0 ≤ row + 0 ∧ row + 0 < (g.rows : ℤ) ∧ 0 ≤ col + -1 ∧ col + -1 < (g.cols : ℤ) then 1 else 0)) +
      (if 0 ≤ row + 0 ∧ row + 0 < (g.rows : ℤ) ∧ 0 ≤ col + 1 ∧ col + 1 < (g.cols : ℤ) then 1 else 0)) +
      (if 0 ≤ row + 1 ∧ row + 1 < (g.rows : ℤ) ∧ 0 ≤ col + -1 ∧ col + -1 < (g.cols : ℤ) then 1 else 0)) +
      (if 0 ≤ row + 1 ∧ row + 1 < (g.rows : ℤ) ∧ 0 ≤ col + 0 ∧ col + 0 < (g.cols : ℤ) then 1 else 0)) +
      (if 0 ≤ row + 1 ∧ row + 1 < (g.rows : ℤ) ∧ 0 ≤ col + 1 ∧ col + 1 < (g.cols : ℤ) then 1 else 0)) := by
  rw [nbhd1_expand]
  simp [List.length_append, length_inclCell]
  ring

theorem filterMap_guard {α β : Type*} (p q : α → Prop) [DecidablePred p] [DecidablePred q]
    (v : α → β) (l : List α) :
    l.filterMap (fun a => if p a then none else if q a then some (v a) else none)
      = (l.filter (fun a => decide (¬ p a ∧ q a))).map v := by
  induction l with
  | nil => simp
  | cons a l ih => by_cases hp : p a <;> by_cases hq : q a <;> simp [hp, hq, ih]

theorem get_neighborhood_eq_sampled (g : Grid) (row col : ℤ) (radius : ℕ) :
    get_neighborhood g row col radius = sampledNeighborhood g row col radius := by
  unfold get_neighborhood sampledNeighborhood neighborOffsets
  rw [List.filter_flatMap, List.map_flatMap]
  congr 1
  funext i
  rw [List.filter_map, List.map_map]
  rw [filterMap_guard (fun j => i = 0 ∧ j = 0)
    (fun j => 0 ≤ row + i ∧ row + i < (g.rows : ℤ) ∧ 0 ≤ col + j ∧ col + j < (g.cols : ℤ))
    (fun j => getEntry g.current (row + i).toNat (col + j).toNat)]
  simp [Function.comp_def]

theorem nbhd1_length_nat (g : Grid) (r c : ℕ) (hr : r < g.rows) (hc : c < g.cols) :
    (get_neighborhood g (r : ℤ) (c : ℤ) 1).length =
      (((((((if 0 < r ∧ 0 < c then 1 else 0) +
      (if 0 < r then 1 else 0)) +
      (if 0 < r ∧ c + 1 < g.cols then 1 else 0)) +
      (if 0 < c then 1 else 0)) +
      (if c + 1 < g.cols then 1 else 0)) +
      (if r + 1 < g.rows ∧ 0 < c then 1 else 0)) +
      (if r + 1 < g.rows then 1 else 0)) +
      (if r + 1 < g.rows ∧ c + 1 < g.cols then 1 else 0) := by
  rw [nbhd1_length]
  simp only
    [show (0 ≤ (r : ℤ) + -1 ∧ (r : ℤ) + -1 < (g.rows : ℤ) ∧ 0 ≤ (c : ℤ) + -1 ∧ (c : ℤ) + -1 < (g.cols : ℤ)) ↔
      (0 < r ∧ 0 < c) from by omega,
    show (0 ≤ (r : ℤ) + -1 ∧ (r : ℤ) + -1 < (g.rows : ℤ) ∧ 0 ≤ (c : ℤ) + 0 ∧ (c : ℤ) + 0 < (g.cols : ℤ)) ↔
      (0 < r) from by omega,
    show (0 ≤ (r : ℤ) + -1 ∧ (r : ℤ) + -1 < (g.rows : ℤ) ∧ 0 ≤ (c : ℤ) + 1 ∧ (c : ℤ) + 1 < (g.cols : ℤ)) ↔
      (0 < r ∧ c + 1 < g.cols) from by omega,
    show (0 ≤ (r : ℤ) + 0 ∧ (r : ℤ) + 0 < (g.rows : ℤ) ∧ 0 ≤ (c : ℤ) + -1 ∧ (c : ℤ) + -1 < (g.cols : ℤ)) ↔
      (0 < c) from by omega,
    show (0 ≤ (r : ℤ) + 0 ∧ (r : ℤ) + 0 < (g.rows : ℤ) ∧ 0 ≤ (c : ℤ) + 1 ∧ (c : ℤ) + 1 < (g.cols : ℤ)) ↔
      (c + 1 < g.cols) from by omega,
    show (0 ≤ (r : ℤ) + 1 ∧ (r : ℤ) + 1 < (g.rows : ℤ) ∧ 0 ≤ (c : ℤ) + -1 ∧ (c : ℤ) + -1 < (g.cols : ℤ)) ↔
      (r + 1 < g.rows ∧ 0 < c) from by omega,
    show (0 ≤ (r : ℤ) + 1 ∧ (r : ℤ) + 1 < (g.rows : ℤ) ∧ 0 ≤ (c : ℤ) + 0 ∧ (c : ℤ) + 0 < (g.cols : ℤ)) ↔
      (r + 1 < g.rows) from by omega,
    show (0 ≤ (r : ℤ) + 1 ∧ (r : ℤ) + 1 < (g.rows : ℤ) ∧ 0 ≤ (c : ℤ) + 1 ∧ (c : ℤ) + 1 < (g.cols : ℤ)) ↔
      (r + 1 < g.rows ∧ c + 1 < g.cols) from by omega]

theorem nbhd1_len_interior (g : Grid) (r c : ℕ) (hr0 : 0 < r) (hr1 : r + 1 < g.rows)
    (hc0 : 0 < c) (hc1 : c + 1 < g.cols) :
    (get_neighborhood g (r : ℤ) (c : ℤ) 1).length = 8 := by
  rw [nbhd1_length_nat g r c (by omega) (by omega)]
  simp [hr0, hr1, hc0, hc1]

theorem nbhd1_len_corner (g : Grid) (r c : ℕ) (hrows : 3 ≤ g.rows) (hcols : 3 ≤ g.cols)
    (hr : r = 0 ∨ r + 1 = g.rows) (hc : c = 0 ∨ c + 1 = g.cols) :
    (get_neighborhood g (r : ℤ) (c : ℤ) 1).length = 3 := by
  have hrlt : r < g.rows := by omega
  have hclt : c < g.cols := by omega
  rw [nbhd1_length_nat g r c hrlt hclt]
  rcases hr with rfl | hr <;> rcases hc with rfl | hc
  · simp [show 0 + 1 < g.rows from by omega, show 0 + 1 < g.cols from by omega]
  · simp [show 0 + 1 < g.rows from by omega, show 0 < c from by omega,
      show ¬(c + 1 < g.cols) from by omega]
  · simp [show 0 < r from by omega, show ¬(r + 1 < g.rows) from by omega,
      show 0 + 1 < g.cols from by omega]
  · simp [show 0 < r from by omega, show ¬(r + 1 < g.rows) from by omega,
      show 0 < c from by omega, show ¬(c + 1 < g.cols) from by omega]

theorem nbhd1_len_edge (g : Grid) (r c : ℕ) (hrows : 3 ≤ g.rows) (hcols : 3 ≤ g.cols)
    (h : ((r = 0 ∨ r + 1 = g.rows) ∧ 0 < c ∧ c + 1 < g.cols) ∨
      ((0 < r ∧ r + 1 < g.rows) ∧ (c = 0 ∨ c + 1 = g.cols))) :
    (get_neighborhood g (r : ℤ) (c : ℤ) 1).length = 5 := by
  have hrlt : r < g.rows := by omega
  have hclt : c < g.cols := by omega
  rw [nbhd1_length_nat g r c hrlt hclt]
  rcases h with ⟨rfl | hr, hc0, hc1⟩ | ⟨⟨hr0, hr1⟩, rfl | hc⟩
  · simp [show 0 + 1 < g.rows from by omega, hc0, hc1]
  · simp [show 0 < r from by omega, show ¬(r + 1 < g.rows) from by omega, hc0, hc1]
  · simp [hr0, hr1, show 0 + 1 < g.cols from by omega]
  · simp [hr0, hr1, show 0 < c from by omega, show ¬(c + 1 < g.cols) from by omega]

theorem mem_nbhd1 {g : Grid} {row col : ℤ} {v : V} (h : v ∈ get_neighborhood g row col 1) :
    ∃ r' c', r' < g.rows ∧ c' < g.cols ∧ v = getEntry g.current r' c' := by
  rw [nbhd1_expand] at h
  simp only [List.mem_append, mem_inclCell] at h
  rcases h with h | h | h | h | h | h | h | h <;>
    exact ⟨_, _, by omega, by omega, h.2⟩

theorem nbhd1_ne_nil {g : Grid} {r c : ℕ} (hrows : 2 ≤ g.rows) (hr : r < g.rows)
    (hc : c < g.cols) :
    get_neighborhood g (r : ℤ) (c : ℤ) 1 ≠ [] := by
  rw [nbhd1_expand]
  intro h
  simp only [List.append_eq_nil] at h
  obtain ⟨h1, h2, h3, h4, h5, h6, h7, h8⟩ := h
  by_cases h0 : 0 < r
  · have hmem : getEntry g.current ((r : ℤ) + -1).toNat ((c : ℤ) + 0).toNat ∈
        inclCell g (r : ℤ) (c : ℤ) (-1) 0 :=
      mem_inclCell.mpr ⟨⟨by omega, by omega, by omega, by omega⟩, rfl⟩
    rw [h2] at hmem
    exact absurd hmem (List.not_mem_nil _)
  · have hmem : getEntry g.current ((r : ℤ) + 1).toNat ((c : ℤ) + 0).toNat ∈
        inclCell g (r : ℤ) (c : ℤ) 1 0 :=
      mem_inclCell.mpr ⟨⟨by omega, by omega, by omega, by omega⟩, rfl⟩
    rw [h7] at hmem
    exact absurd hmem (List.not_mem_nil _)

/-! ### The update engine -/

theorem mem_cellList {rows cols r c : ℕ} :
    (r, c) ∈ cellList rows cols ↔ r < rows ∧ c < cols := by
  unfold cellList
  rw [List.mem_flatMap]
  constructor
  · rintro ⟨a, ha, hmem⟩
    rw [List.mem_map] at hmem
    obtain ⟨b, hb, heq⟩ := hmem
    cases heq
    exact ⟨List.mem_range.mp ha, List.mem_range.mp hb⟩
  · rintro ⟨hr, hc⟩
    exact ⟨r, List.mem_range.mpr hr, List.mem_map.mpr ⟨c, List.mem_range.mpr hc, rfl⟩⟩

theorem stepWrites_shape {g : Grid} {rule : V → List V → Except Unit V} {rows cols : ℕ} :
    ∀ (cells : List (ℕ × ℕ)) (buf out : List (List V)), BufShape buf rows cols →
      (stepWrites g rule cells buf = .ok out ∨ stepWrites g rule cells buf = .error out) →
      BufShape out rows cols := by
  intro cells
  induction cells with
  | nil =>
    intro buf out hbuf hres
    rcases hres with h | h <;> simp [stepWrites] at h
    exact h ▸ hbuf
  | cons p rest ih =>
    obtain ⟨r, c⟩ := p
    intro buf out hbuf hres
    cases hrule : rule (getEntry g.current r c) (get_neighborhood g (r : ℤ) (c : ℤ) 1) with
    | ok v =>
      rcases hres with h | h <;>
      · simp only [stepWrites, hrule] at h
        exact ih _ _ (shape_writeCell hbuf r c v) (by tauto)
    | error e =>
      rcases hres with h | h
      · simp [stepWrites, hrule] at h
      · simp only [stepWrites, hrule] at h
        injection h with h2
        exact h2 ▸ hbuf

theorem stepWrites_untouched {g : Grid} {rule : V → List V → Except Unit V} :
    ∀ (cells : List (ℕ × ℕ)) (buf out : List (List V)) (r c : ℕ), (r, c) ∉ cells →
      stepWrites g rule cells buf = .ok out → getEntry out r c = getEntry buf r c := by
  intro cells
  induction cells with
  | nil =>
    intro buf out r c _ h
    simp [stepWrites] at h
    rw [h]
  | cons p rest ih =>
    obtain ⟨a, b⟩ := p
    intro buf out r c hnm h
    simp only [stepWrites] at h
    cases hrule : rule (getEntry g.current a b) (get_neighborhood g (a : ℤ) (b : ℤ) 1) with
    | ok v =>
      rw [hrule] at h
      have hrest : (r, c) ∉ rest := fun hm => hnm (List.mem_cons_of_mem _ hm)
      have hne : ¬(r = a ∧ c = b) := by
        rintro ⟨rfl, rfl⟩
        exact hnm (List.mem_cons_self _ _)
      rw [ih _ _ _ _ hrest h, getEntry_writeCell_ne hne]
    | error e =>
      rw [hrule] at h
      simp at h

theorem stepWrites_ok_entry {g : Grid} {rule : V → List V → Except Unit V} {rows cols : ℕ} :
    ∀ (cells : List (ℕ × ℕ)) (buf out : List (List V)), BufShape buf rows cols →
      stepWrites g rule cells buf = .ok out →
      ∀ r c v, (r, c) ∈ cells → r < rows → c < cols →
        rule (getEntry g.current r c) (get_neighborhood g (r : ℤ) (c : ℤ) 1) = .ok v →
        getEntry out r c = v := by
  intro cells
  induction cells with
  | nil =>
    intro buf out _ _ r c v hmem
    exact absurd hmem (List.not_mem_nil _)
  | cons p rest ih =>
    obtain ⟨a, b⟩ := p
    intro buf out hbuf h r c v hmem hr hc hrule
    simp only [stepWrites] at h
    cases hab : rule (getEntry g.current a b) (get_neighborhood g (a : ℤ) (b : ℤ) 1) with
    | ok w =>
      rw [hab] at h
      by_cases hmem' : (r, c) ∈ rest
      · exact ih _ _ (shape_writeCell hbuf a b w) h r c v hmem' hr hc hrule
      · have heq : (r, c) = (a, b) := by
          rcases List.mem_cons.mp hmem with h' | h'
          · exact h'
          · exact absurd h' hmem'
        obtain ⟨rfl, rfl⟩ : r = a ∧ c = b := Prod.mk.injEq .. ▸ Prod.ext_iff.mp heq
        have hw : v = w := by
          rw [hrule] at hab
          exact (Except.ok.injEq .. ▸ hab).symm ▸ rfl
        rw [stepWrites_untouched rest _ _ r c hmem' h,
          getEntry_writeCell_self hbuf hr hc, hw]
    | error e =>
      rw [hab] at h
      simp at h

theorem stepWrites_ok_all {g : Grid} {rule : V → List V → Except Unit V} :
    ∀ (cells : List (ℕ × ℕ)) (buf out : List (List V)),
      stepWrites g rule cells buf = .ok out →
      ∀ r c, (r, c) ∈ cells →
        ∃ v, rule (getEntry g.current r c) (get_neighborhood g (r : ℤ) (c : ℤ) 1) = .ok v := by
  intro cells
  induction cells with
  | nil =>
    intro buf out _ r c hmem
    exact absurd hmem (List.not_mem_nil _)
  | cons p rest ih =>
    obtain ⟨a, b⟩ := p
    intro buf out h r c hmem
    simp only [stepWrites] at h
    cases hab : rule (getEntry g.current a b) (get_neighborhood g (a : ℤ) (b : ℤ) 1) with
    | ok w =>
      rw [hab] at h
      rcases List.mem_cons.mp hmem with heq | hmem'
      · obtain ⟨rfl, rfl⟩ : r = a ∧ c = b := Prod.ext_iff.mp heq
        exact ⟨w, hab⟩
      · exact ih _ _ h r c hmem'
    | error e =>
      rw [hab] at h
      simp at h

theorem stepWrites_liftRule_ok (g : Grid) (f : V → List V → V) :
    ∀ (cells : List (ℕ × ℕ)) (buf : List (List V)),
      ∃ out, stepWrites g (liftRule f) cells buf = .ok out := by
  intro cells
  induction cells with
  | nil => intro buf; exact ⟨buf, rfl⟩
  | cons p rest ih =>
    obtain ⟨a, b⟩ := p
    intro buf
    simp only [stepWrites, liftRule]
    exact ih _

theorem update_ok_iff {g : Grid} {rule : V → List V → Except Unit V} {g' : Grid} :
    update g rule = .ok g' ↔
      ∃ w, stepWrites g rule (cellList g.rows g.cols) g.next = .ok w ∧
        g' = { g with current := w, next := g.current } := by
  unfold update
  cases h : stepWrites g rule (cellList g.rows g.cols) g.next <;> simp [h]
  tauto

theorem update_error_iff {g : Grid} {rule : V → List V → Except Unit V} {g' : Grid} :
    update g rule = .error g' ↔
      ∃ w, stepWrites g rule (cellList g.rows g.cols) g.next = .error w ∧
        g' = { g with next := w } := by
  unfold update
  cases h : stepWrites g rule (cellList g.rows g.cols) g.next <;> simp [h]
  tauto

/-! ### Evaluating the diffusion rule on finite values -/

theorem allSome_exists {l : List V} (h : ∀ v ∈ l, ∃ q : ℚ, v = some q) :
    ∃ xs, allSome l = some xs := by
  induction l with
  | nil => exact ⟨[], rfl⟩
  | cons a rest ih =>
    obtain ⟨q, rfl⟩ := h a (List.mem_cons_self _ _)
    obtain ⟨xs, hxs⟩ := ih (fun v hv => h v (List.mem_cons_of_mem _ hv))
    exact ⟨q :: xs, by simp [allSome, hxs]⟩

theorem mem_of_allSome {l : List V} {xs : List ℚ} (h : allSome l = some xs) :
    ∀ q ∈ xs, some q ∈ l := by
  induction l generalizing xs with
  | nil =>
    simp [allSome] at h
    subst h
    intro q hq
    exact absurd hq (List.not_mem_nil _)
  | cons a rest ih =>
    match a with
    | none => simp [allSome] at h
    | some x =>
      simp only [allSome, Option.map_eq_some'] at h
      obtain ⟨ys, hys, rfl⟩ := h
      intro q hq
      rcases List.mem_cons.mp hq with rfl | hq'
      · exact List.mem_cons_self _ _
      · exact List.mem_cons_of_mem _ (ih hys q hq')

theorem mean_bounds {xs : List ℚ} {a b : ℚ} (hne : xs ≠ [])
    (h : ∀ x ∈ xs, a ≤ x ∧ x ≤ b) :
    a ≤ xs.sum / (xs.length : ℚ) ∧ xs.sum / (xs.length : ℚ) ≤ b := by
  have hlen : 0 < (xs.length : ℚ) := by
    have := List.length_pos.mpr hne
    exact_mod_cast this
  constructor
  · rw [le_div_iff₀ hlen]
    have : xs.length • a ≤ xs.sum :=
      List.card_nsmul_le_sum xs a (fun x hx => (h x hx).1)
    rw [nsmul_eq_mul] at this
    linarith
  · rw [div_le_iff₀ hlen]
    have : xs.sum ≤ xs.length • b :=
      List.sum_le_card_nsmul xs b (fun x hx => (h x hx).2)
    rw [nsmul_eq_mul] at this
    linarith

theorem default_diffusion_rule_eval {cv : ℚ} {ns : List V} {xs : List ℚ}
    (h : allSome ns = some xs) (hne : ns ≠ []) :
    default_diffusion_rule (some cv) ns =
      some (9 / 10 * cv + 1 / 10 * (xs.sum / (xs.length : ℚ))) := by
  unfold default_diffusion_rule
  rw [npMean_of_allSome h (fun h0 => hne (List.length_eq_zero.mp h0))]
  rfl

theorem mkBuf_shape (rows cols : ℕ) (f : ℕ → ℕ → V) :
    BufShape (mkBuf rows cols f) rows cols := by
  constructor
  · simp [mkBuf]
  · intro row hrow
    simp only [mkBuf, List.mem_map] at hrow
    obtain ⟨r, _, rfl⟩ := hrow
    simp

theorem zeros_like_shape {buf : List (List V)} {rows cols : ℕ}
    (h : BufShape buf rows cols) : BufShape (zeros_like buf) rows cols := by
  obtain ⟨hlen, hrow⟩ := h
  constructor
  · simp [zeros_like, hlen]
  · intro row hrow'
    simp only [zeros_like, List.mem_map] at hrow'
    obtain ⟨row', hmem, rfl⟩ := hrow'
    simp [hrow _ hmem]

theorem initialize_grid_random (g : Grid) (value : Option V) (rand : ℕ → ℕ → V) :
    initialize_grid g "random" value rand =
      { g with current := mkBuf g.rows g.cols rand,
               next := zeros_like (mkBuf g.rows g.cols rand) } := by
  unfold initialize_grid
  simp

theorem initialize_grid_uniform (g : Grid) (value : Option V) (rand : ℕ → ℕ → V) :
    initialize_grid g "uniform" value rand =
      { g with current := mkBuf g.rows g.cols (fun _ _ => value.getD (some g.state_min)),
               next := zeros_like
                 (mkBuf g.rows g.cols (fun _ _ => value.getD (some g.state_min))) } := by
  unfold initialize_grid
  simp

theorem initialize_grid_invalid (g : Grid) (mode : String) (value : Option V)
    (rand : ℕ → ℕ → V) (h1 : mode ≠ "random") (h2 : mode ≠ "uniform") :
    initialize_grid g mode value rand = { g with next := zeros_like g.current } := by
  unfold initialize_grid
  simp [h1, h2]

/-! ### The claims -/

/-- Claim C1: on a well-formed grid, for an in-bounds cell whose radius-1
neighborhood is non-empty (its values finite), a step with the default
diffusion rule completes and the value written for that cell — found in the
swapped-in `current` buffer — is exactly
`0.9 * current[r,c] + 0.1 * mean(sampled neighbors)`. -/
theorem C1_diffusion_step_writes_weighted_mean (g : Grid) (hwf : WellFormed g)
    (r c : ℕ) (hr : r < g.rows) (hc : c < g.cols) (x : ℚ)
    (hx : getEntry g.current r c = some x) (xs : List ℚ)
    (hxs : allSome (get_neighborhood g (r : ℤ) (c : ℤ) 1) = some xs)
    (hne : get_neighborhood g (r : ℤ) (c : ℤ) 1 ≠ []) :
    ∃ g', update g (liftRule default_diffusion_rule) = .ok g' ∧
      getEntry g'.current r c =
        some (9 / 10 * x + 1 / 10 * (xs.sum / (xs.length : ℚ))) := by
  obtain ⟨w, hw⟩ :=
    stepWrites_liftRule_ok g default_diffusion_rule (cellList g.rows g.cols) g.next
  refine ⟨{ g with current := w, next := g.current }, ?_, ?_⟩
  · unfold update
    rw [hw]
  · have hv : liftRule default_diffusion_rule (getEntry g.current r c)
        (get_neighborhood g (r : ℤ) (c : ℤ) 1) =
        .ok (some (9 / 10 * x + 1 / 10 * (xs.sum / (xs.length : ℚ)))) := by
      unfold liftRule
      rw [hx, default_diffusion_rule_eval hxs hne]
    have hentry := stepWrites_ok_entry _ _ _ hwf.2 hw r c _
      (mem_cellList.mpr ⟨hr, hc⟩) hr hc hv
    simpa using hentry

/-- Claim C1, witnessed on a concrete 1 x 2 grid: the single neighbor of cell
(0,0) is 0, so the step writes `0.9 * 1 + 0.1 * 0`. -/
theorem C1_witness :
    ∃ g', update grid12 (liftRule default_diffusion_rule) = .ok g' ∧
      getEntry g'.current 0 0 =
        some (9 / 10 * 1 + 1 / 10 * (([(0 : ℚ)]).sum / ((([(0 : ℚ)]).length : ℕ) : ℚ))) :=
  C1_diffusion_step_writes_weighted_mean grid12
    ⟨⟨rfl, by decide⟩, ⟨rfl, by decide⟩⟩ 0 0 (by decide) (by decide) 1 (by decide)
    [0] (by decide) (by decide)

/-- Claim C2: the sampler returns exactly the in-bounds, non-center values
`current[row+di, col+dj]` in row-major offset order (no wraparound), and at
radius 1 on a grid with rows, cols ≥ 3 an interior cell yields 8 values, a
corner cell 3, and a non-corner edge cell 5. -/
theorem C2_neighborhood_characterization :
    (∀ (g : Grid) (row col : ℤ) (radius : ℕ),
      get_neighborhood g row col radius = sampledNeighborhood g row col radius) ∧
    (∀ (g : Grid) (r c : ℕ), 3 ≤ g.rows → 3 ≤ g.cols →
      0 < r → r + 1 < g.rows → 0 < c → c + 1 < g.cols →
      (get_neighborhood g (r : ℤ) (c : ℤ) 1).length = 8) ∧
    (∀ (g : Grid) (r c : ℕ), 3 ≤ g.rows → 3 ≤ g.cols →
      (r = 0 ∨ r + 1 = g.rows) → (c = 0 ∨ c + 1 = g.cols) →
      (get_neighborhood g (r : ℤ) (c : ℤ) 1).length = 3) ∧
    (∀ (g : Grid) (r c : ℕ), 3 ≤ g.rows → 3 ≤ g.cols →
      (((r = 0 ∨ r + 1 = g.rows) ∧ 0 < c ∧ c + 1 < g.cols) ∨
        ((0 < r ∧ r + 1 < g.rows) ∧ (c = 0 ∨ c + 1 = g.cols))) →
      (get_neighborhood g (r : ℤ) (c : ℤ) 1).length = 5) :=
  ⟨get_neighborhood_eq_sampled,
   fun g r c _ _ => nbhd1_len_interior g r c,
   nbhd1_len_corner,
   nbhd1_len_edge⟩

/-- Claim C2, witnessed on a concrete 3 x 3 grid: the characterization at the
center, and the counts 8 (center), 3 (corner (0,0)) and 5 (edge (0,1)). -/
theorem C2_witness :
    get_neighborhood grid33 ((1 : ℕ) : ℤ) ((1 : ℕ) : ℤ) 1 =
        sampledNeighborhood grid33 ((1 : ℕ) : ℤ) ((1 : ℕ) : ℤ) 1 ∧
      (get_neighborhood grid33 ((1 : ℕ) : ℤ) ((1 : ℕ) : ℤ) 1).length = 8 ∧
      (get_neighborhood grid33 ((0 : ℕ) : ℤ) ((0 : ℕ) : ℤ) 1).length = 3 ∧
      (get_neighborhood grid33 ((0 : ℕ) : ℤ) ((1 : ℕ) : ℤ) 1).length = 5 :=
  ⟨C2_neighborhood_characterization.1 grid33 ((1 : ℕ) : ℤ) ((1 : ℕ) : ℤ) 1,
   C2_neighborhood_characterization.2.1 grid33 1 1 (by decide) (by decide)
     (by decide) (by decide) (by decide) (by decide),
   C2_neighborhood_characterization.2.2.1 grid33 0 0 (by decide) (by decide)
     (Or.inl rfl) (Or.inl rfl),
   C2_neighborhood_characterization.2.2.2 grid33 0 1 (by decide) (by decide)
     (Or.inl ⟨Or.inl rfl, by decide, by decide⟩)⟩

/-- Claim C3: after a completed step the buffers are exchanged, not copied:
the new `next` is exactly the pre-step `current` buffer, and the new
`current` is the pre-step `next` buffer fully written by the loop. -/
theorem C3_buffers_swapped (g : Grid) (rule : V → List V → Except Unit V) (g' : Grid)
    (h : update g rule = .ok g') :
    g'.next = g.current ∧
      ∃ w, stepWrites g rule (cellList g.rows g.cols) g.next = .ok w ∧ g'.current = w := by
  obtain ⟨w, hw, rfl⟩ := update_ok_iff.mp h
  exact ⟨rfl, w, hw, rfl⟩

/-- Claim C3, witnessed on a concrete 1 x 1 grid with a constant rule. -/
theorem C3_witness :
    ({ rows := 1, cols := 1, state_min := 0, state_max := 1,
        current := [[some 0]], next := [[some 2]] } : Grid).next = grid11.current ∧
      ∃ w, stepWrites grid11 (liftRule (fun _ _ => some 0))
          (cellList grid11.rows grid11.cols) grid11.next = .ok w ∧
        ({ rows := 1, cols := 1, state_min := 0, state_max := 1,
            current := [[some 0]], next := [[some 2]] } : Grid).current = w :=
  C3_buffers_swapped grid11 (liftRule (fun _ _ => some 0)) _ rfl

/-- Claim C4: if the rule raises for some in-bounds cell, the step aborts:
`update` propagates the error before the swap line runs, so the aborted
state's `current` is the untouched pre-step buffer and the partially-written
`next` buffer is never swapped in. -/
theorem C4_rule_failure_aborts_before_swap (g : Grid)
    (rule : V → List V → Except Unit V)
    (hfail : ∃ r c, r < g.rows ∧ c < g.cols ∧
      rule (getEntry g.current r c) (get_neighborhood g (r : ℤ) (c : ℤ) 1) = .error ()) :
    ∃ g', update g rule = .error g' ∧ g'.current = g.current ∧
      g'.rows = g.rows ∧ g'.cols = g.cols := by
  obtain ⟨r, c, hr, hc, herr⟩ := hfail
  cases hres : stepWrites g rule (cellList g.rows g.cols) g.next with
  | ok out =>
    obtain ⟨v, hv⟩ := stepWrites_ok_all _ _ _ hres r c (mem_cellList.mpr ⟨hr, hc⟩)
    rw [herr] at hv
    exact absurd hv (by simp)
  | error buf =>
    refine ⟨{ g with next := buf }, ?_, rfl, rfl, rfl⟩
    unfold update
    rw [hres]

/-- Claim C4, witnessed on a concrete 1 x 1 grid with an always-raising rule. -/
theorem C4_witness :
    ∃ g', update grid11 (fun _ _ => .error ()) = .error g' ∧
      g'.current = grid11.current ∧ g'.rows = grid11.rows ∧ g'.cols = grid11.cols :=
  C4_rule_failure_aborts_before_swap grid11 (fun _ _ => .error ())
    ⟨0, 0, by decide, by decide, rfl⟩

/-- Claim C5 is false of the code: on an empty neighbor sequence the
diffusion rule does not raise — `np.mean` of an empty array yields NaN (here
`none`) and the rule silently returns it; on a 1 x 1 grid the step even
completes, writing NaN into the cell. -/
theorem C5_counterexample :
    default_diffusion_rule (some (1 / 2)) [] = none ∧
      ∃ g', update grid11 (liftRule default_diffusion_rule) = .ok g' ∧
        getEntry g'.current 0 0 = none :=
  ⟨rfl, ⟨{ grid11 with current := [[none]], next := grid11.current }, rfl, rfl⟩⟩

/-- Claim C5 as amended: with an empty neighbor sequence the diffusion rule
silently returns NaN (`none`), for any cell value. -/
theorem C5_amended_empty_neighbors_nan (cv : V) :
    default_diffusion_rule cv [] = none := by
  unfold default_diffusion_rule
  rw [npMean_nil]
  cases cv <;> rfl

/-- Claim C6 is false of the code: an unrecognized mode leaves `current`
unchanged, but line 59 still reassigns `next` to a zero buffer, so the grid
state as a whole is not left unchanged. -/
theorem C6_counterexample :
    (initialize_grid grid11 "gradient" none (fun _ _ => some 0)).next ≠ grid11.next ∧
      (initialize_grid grid11 "gradient" none (fun _ _ => some 0)).current =
        grid11.current := by
  constructor
  · decide
  · decide

/-- Claim C6 as amended: an unrecognized mode leaves `current` (and the
dimensions) unchanged but still replaces `next` with a zero buffer shaped
like `current`. -/
theorem C6_amended_invalid_mode (g : Grid) (mode : String) (value : Option V)
    (rand : ℕ → ℕ → V) (h1 : mode ≠ "random") (h2 : mode ≠ "uniform") :
    (initialize_grid g mode value rand).current = g.current ∧
      (initialize_grid g mode value rand).next = zeros_like g.current ∧
      (initialize_grid g mode value rand).rows = g.rows ∧
      (initialize_grid g mode value rand).cols = g.cols := by
  unfold initialize_grid
  simp [h1, h2]

/-- Claim C6 as amended, witnessed with the (commented-out) mode string
`gradient` on a concrete grid. -/
theorem C6_amended_witness :
    (initialize_grid grid22 "gradient" none (fun _ _ => some 0)).current =
        grid22.current ∧
      (initialize_grid grid22 "gradient" none (fun _ _ => some 0)).next =
        zeros_like grid22.current ∧
      (initialize_grid grid22 "gradient" none (fun _ _ => some 0)).rows = grid22.rows ∧
      (initialize_grid grid22 "gradient" none (fun _ _ => some 0)).cols = grid22.cols :=
  C6_amended_invalid_mode grid22 "gradient" none (fun _ _ => some 0)
    (by decide) (by decide)

theorem npIndex_eq_none_iff {n : ℕ} {i : ℤ} :
    npIndex n i = none ↔ (i < -(n : ℤ) ∨ (n : ℤ) ≤ i) := by
  unfold npIndex
  split_ifs <;> simp <;> omega

theorem npIndex_eq_some {n : ℕ} {i : ℤ} (h1 : -(n : ℤ) ≤ i) (h2 : i < (n : ℤ)) :
    npIndex n i = some (if 0 ≤ i then i.toNat else (i + (n : ℤ)).toNat) := by
  unfold npIndex
  split_ifs <;> first | rfl | omega

/-- Claim C7: the stochastic threshold rule computes `liveSum`, selects the
branch exactly as the claim states, and scales by `(1 - attenuation)` last;
the Poisson draws enter only as the parameters `d4`, `d9`. -/
theorem C7_stochastic_threshold_rule (cv : ℚ) (ns : List ℚ) (a : ℚ) (d4 d9 : ℕ) :
    X_diffusion_rule (some cv) (ns.map some) a d4 d9 =
      some ((1 - a) *
        (if 1 / 2 < cv ∧ cv < 3 / 2 then
          (if 3 / 2 < ns.sum ∧ ns.sum < 7 / 2 then (d4 : ℚ) / 4 else 0)
        else
          (if 3 < ns.sum then (d9 : ℚ) / 9 else 0))) := by
  unfold X_diffusion_rule
  rw [nsum_map_some]
  simp only [nlt, Bool.and_eq_true, decide_eq_true_eq]
  split_ifs <;> simp [nmul]

/-- Claim C8: a step never changes `rows`/`cols` (whether it completes or
aborts), a completed step preserves well-formedness of the two buffers
(identical rows x cols shape), and re-initialization does so as well. -/
theorem C8_shape_preserved (g : Grid) (rule : V → List V → Except Unit V) :
    (∀ g', update g rule = .ok g' → g'.rows = g.rows ∧ g'.cols = g.cols ∧
      (WellFormed g → WellFormed g')) ∧
    (∀ g', update g rule = .error g' → g'.rows = g.rows ∧ g'.cols = g.cols) ∧
    (∀ (mode : String) (value : Option V) (rand : ℕ → ℕ → V), WellFormed g →
      WellFormed (initialize_grid g mode value rand) ∧
      (initialize_grid g mode value rand).rows = g.rows ∧
      (initialize_grid g mode value rand).cols = g.cols) := by
  refine ⟨?_, ?_, ?_⟩
  · intro g' h
    obtain ⟨w, hw, rfl⟩ := update_ok_iff.mp h
    refine ⟨rfl, rfl, ?_⟩
    intro hwf
    exact ⟨stepWrites_shape _ _ _ hwf.2 (Or.inl hw), hwf.1⟩
  · intro g' h
    obtain ⟨w, hw, rfl⟩ := update_error_iff.mp h
    exact ⟨rfl, rfl⟩
  · intro mode value rand hwf
    by_cases h1 : mode = "random"
    · subst h1
      rw [initialize_grid_random]
      exact ⟨⟨mkBuf_shape _ _ _, zeros_like_shape (mkBuf_shape _ _ _)⟩, rfl, rfl⟩
    · by_cases h2 : mode = "uniform"
      · subst h2
        rw [initialize_grid_uniform]
        exact ⟨⟨mkBuf_shape _ _ _, zeros_like_shape (mkBuf_shape _ _ _)⟩, rfl, rfl⟩
      · rw [initialize_grid_invalid g mode value rand h1 h2]
        exact ⟨⟨hwf.1, zeros_like_shape hwf.1⟩, rfl, rfl⟩

/-- Claim C8, witnessed on a concrete 1 x 1 grid: a completed step and a
re-initialization both preserve the dimensions and the buffer shapes. -/
theorem C8_witness :
    ({ grid11 with current := [[some 0]], next := grid11.current } : Grid).rows =
        grid11.rows ∧
      ({ grid11 with current := [[some 0]], next := grid11.current } : Grid).cols =
        grid11.cols ∧
      (WellFormed grid11 →
        WellFormed ({ grid11 with current := [[some 0]], next := grid11.current } : Grid)) ∧
      (WellFormed (initialize_grid grid11 "uniform" none (fun _ _ => some 0)) ∧
        (initialize_grid grid11 "uniform" none (fun _ _ => some 0)).rows = grid11.rows ∧
        (initialize_grid grid11 "uniform" none (fun _ _ => some 0)).cols = grid11.cols) :=
  ⟨((C8_shape_preserved grid11 (liftRule (fun _ _ => some 0))).1 _ rfl).1,
   ((C8_shape_preserved grid11 (liftRule (fun _ _ => some 0))).1 _ rfl).2.1,
   ((C8_shape_preserved grid11 (liftRule (fun _ _ => some 0))).1 _ rfl).2.2,
   (C8_shape_preserved grid11 (liftRule (fun _ _ => some 0))).2.2 "uniform" none
     (fun _ _ => some 0) ⟨⟨rfl, by decide⟩, ⟨rfl, by decide⟩⟩⟩

/-- Claim C9 is false of the code: NumPy indexing accepts negative indices in
`[-rows, -1]` and silently wraps them, so `current_grid[-1, 0]` on a 2 x 2
grid returns cell (1, 0)'s value instead of raising IndexError. -/
theorem C9_counterexample :
    npGet grid22 (-1) 0 = some (getEntry grid22.current 1 0) ∧
      npGet grid22 (-1) 0 ≠ none := by
  constructor
  · decide
  · decide

/-- Claim C9 as amended: the read `current_grid[row, col]` raises IndexError
exactly when `row ∉ [-rows, rows)` or `col ∉ [-cols, cols)`; an in-range
index resolves to itself when nonnegative and silently wraps to
`rows + row` / `cols + col` when negative — it never clamps. -/
theorem C9_amended_indexing (g : Grid) (r c : ℤ) :
    (npGet g r c = none ↔
      (r < -(g.rows : ℤ) ∨ (g.rows : ℤ) ≤ r ∨ c < -(g.cols : ℤ) ∨ (g.cols : ℤ) ≤ c)) ∧
    (-(g.rows : ℤ) ≤ r → r < (g.rows : ℤ) → -(g.cols : ℤ) ≤ c → c < (g.cols : ℤ) →
      npGet g r c = some (getEntry g.current
        (if 0 ≤ r then r.toNat else (r + (g.rows : ℤ)).toNat)
        (if 0 ≤ c then c.toNat else (c + (g.cols : ℤ)).toNat))) := by
  constructor
  · constructor
    · intro h
      by_contra hout
      push_neg at hout
      obtain ⟨hr1, hr2, hc1, hc2⟩ := hout
      unfold npGet at h
      rw [npIndex_eq_some (by omega) (by omega), npIndex_eq_some (by omega) (by omega)] at h
      simp at h
    · intro hout
      unfold npGet
      rcases hout with h | h | h | h
      · rw [npIndex_eq_none_iff.mpr (Or.inl h)]
      · rw [npIndex_eq_none_iff.mpr (Or.inr h)]
      all_goals
        cases hidx : npIndex g.rows r
        · rfl
        · rw [npIndex_eq_none_iff.mpr (by omega)]
  · intro hr1 hr2 hc1 hc2
    unfold npGet
    rw [npIndex_eq_some hr1 hr2, npIndex_eq_some hc1 hc2]

/-- Claim C9 as amended, witnessed on a concrete 2 x 2 grid at the wrapped
index (-1, 0) and at the out-of-range index (2, 0). -/
theorem C9_amended_witness :
    npGet grid22 (-1) 0 = some (getEntry grid22.current
        (if (0 : ℤ) ≤ -1 then (-1 : ℤ).toNat else ((-1 : ℤ) + (grid22.rows : ℤ)).toNat)
        (if (0 : ℤ) ≤ 0 then (0 : ℤ).toNat else ((0 : ℤ) + (grid22.cols : ℤ)).toNat)) ∧
      npGet grid22 2 0 = none :=
  ⟨(C9_amended_indexing grid22 (-1) 0).2 (by decide) (by decide) (by decide) (by decide),
   (C9_amended_indexing grid22 2 0).1.mpr (Or.inr (Or.inl (by decide)))⟩

/-- Claim C10: on a well-formed grid with rows, cols ≥ 2 whose cell values
all lie in `[a, b]`, one step with the default diffusion rule completes and
every written cell value again lies in `[a, b]`: the new value is the convex
combination `0.9 * current + 0.1 * mean(neighbors)` of values in `[a, b]`. -/
theorem C10_diffusion_preserves_range (a b : ℚ) (g : Grid) (hwf : WellFormed g)
    (hrows : 2 ≤ g.rows) (hcols : 2 ≤ g.cols)
    (hrange : ∀ r c, r < g.rows → c < g.cols →
      ∃ q, getEntry g.current r c = some q ∧ a ≤ q ∧ q ≤ b) :
    ∃ g', update g (liftRule default_diffusion_rule) = .ok g' ∧
      ∀ r c, r < g.rows → c < g.cols →
        ∃ q, getEntry g'.current r c = some q ∧ a ≤ q ∧ q ≤ b := by
  obtain ⟨w, hw⟩ :=
    stepWrites_liftRule_ok g default_diffusion_rule (cellList g.rows g.cols) g.next
  refine ⟨{ g with current := w, next := g.current }, ?_, ?_⟩
  · unfold update
    rw [hw]
  · intro r c hr hc
    obtain ⟨x, hx, hax, hxb⟩ := hrange r c hr hc
    have hsome : ∀ v ∈ get_neighborhood g (r : ℤ) (c : ℤ) 1,
        ∃ q : ℚ, v = some q ∧ a ≤ q ∧ q ≤ b := by
      intro v hv
      obtain ⟨r', c', hr', hc', rfl⟩ := mem_nbhd1 hv
      exact hrange r' c' hr' hc'
    obtain ⟨xs, hxs⟩ := allSome_exists (fun v hv => (hsome v hv).imp (fun q hq => hq.1))
    have hnsne : get_neighborhood g (r : ℤ) (c : ℤ) 1 ≠ [] := nbhd1_ne_nil hrows hr hc
    have hxsne : xs ≠ [] := by
      intro h0
      apply hnsne
      have hlen := allSome_length hxs
      rw [h0] at hlen
      exact List.length_eq_zero.mp hlen.symm
    have hxsrange : ∀ q ∈ xs, a ≤ q ∧ q ≤ b := by
      intro q hq
      obtain ⟨q', hq', h1, h2⟩ := hsome _ (mem_of_allSome hxs q hq)
      cases Option.some.inj hq'
      exact ⟨h1, h2⟩
    obtain ⟨hm1, hm2⟩ := mean_bounds hxsne hxsrange
    have hv : liftRule default_diffusion_rule (getEntry g.current r c)
        (get_neighborhood g (r : ℤ) (c : ℤ) 1) =
        .ok (some (9 / 10 * x + 1 / 10 * (xs.sum / (xs.length : ℚ)))) := by
      unfold liftRule
      rw [hx, default_diffusion_rule_eval hxs hnsne]
    have hentry := stepWrites_ok_entry _ _ _ hwf.2 hw r c _
      (mem_cellList.mpr ⟨hr, hc⟩) hr hc hv
    exact ⟨_, by simpa using hentry, by linarith, by linarith⟩

/-- Claim C10, witnessed on a concrete 2 x 2 grid with values in `[1, 4]`. -/
theorem C10_witness :
    ∃ g', update grid22 (liftRule default_diffusion_rule) = .ok g' ∧
      ∀ r c, r < grid22.rows → c < grid22.cols →
        ∃ q, getEntry g'.current r c = some q ∧ 1 ≤ q ∧ q ≤ 4 :=
  C10_diffusion_preserves_range 1 4 grid22
    ⟨⟨rfl, by decide⟩, ⟨rfl, by decide⟩⟩ (by decide) (by decide)
    (by
      intro r c hr hc
      have hr' : r < 2 := hr
      have hc' : c < 2 := hc
      interval_cases r <;> interval_cases c <;>
        exact ⟨_, rfl, by norm_num, by norm_num⟩)

end Automata
